import Mathlib

/-!
Shallow embedding of the snapshot-buffering and interpolation core of
`bevy_replicon_snap` (src/snapshots/components.rs,
src/snapshots/component_snapshots.rs, src/snapshots/event_snapshots.rs,
src/interpolation.rs).

Modelling conventions:
- `u32` ticks and `usize` indices/lengths become `Nat` (the spec treats the
  tick as a sufficiently large unsigned counter; wraparound is out of scope).
- `f32` elapsed time and blend factors become `ℚ`; the only arithmetic the
  verified claims depend on (`0 / d = 0`, `d / d = 1` for `d ≠ 0`, clamping)
  is exact in `f32` as well.
- `VecDeque` becomes `List` with the front at the head: `pop_front` is
  `List.tail`, `push_back` appends on the right.
- Rust iterators returned by `frontier` become the returned `List` paired
  with the mutated buffer state.
-/

namespace ReplSnap

/-- One component snapshot: `ComponentSnapshot { tick, value }`
(src/snapshots/components.rs). -/
structure ComponentSnapshot (C : Type) where
  tick : Nat
  value : C
deriving Repr, DecidableEq

/-- `ComponentSnapshotBuffer` (identical field layout in
src/snapshots/components.rs and src/snapshots/component_snapshots.rs):
a bounded deque of snapshots plus age tracking. -/
structure ComponentSnapshotBuffer (C : Type) where
  buffer : List (ComponentSnapshot C)
  time_since_last_snapshot : ℚ
  latest_snapshot_tick : Nat
  max_buffer_size : Nat
deriving Repr, DecidableEq

namespace ComponentSnapshotBuffer

/-- `ComponentSnapshotBuffer::new(max_buffer_size)` /
`with_capacity(max_buffer_size)`: empty buffer, age 0, latest tick 0. -/
def new (C : Type) (max_buffer_size : Nat) : ComponentSnapshotBuffer C :=
  { buffer := []
    time_since_last_snapshot := 0
    latest_snapshot_tick := 0
    max_buffer_size := max_buffer_size }

/-- `ComponentSnapshotBuffer::insert` from src/snapshots/components.rs
(lines 51-67): rejects `tick <= latest_snapshot_tick`, otherwise pops the
front when full, pushes back, resets age, updates the latest tick. -/
def insert {C : Type} (b : ComponentSnapshotBuffer C) (element : C) (tick : Nat) :
    ComponentSnapshotBuffer C :=
  if tick ≤ b.latest_snapshot_tick then b
  else
    let buf := if b.max_buffer_size ≤ b.buffer.length then b.buffer.tail else b.buffer
    { b with
        buffer := buf ++ [⟨tick, element⟩]
        time_since_last_snapshot := 0
        latest_snapshot_tick := tick }

/-- `ComponentSnapshotBuffer::insert` from
src/snapshots/component_snapshots.rs (lines 51-71): returns early when
`max_buffer_size == 0`, rejects only `tick < latest_snapshot_tick`
(an equal tick is accepted), otherwise pops the front when full, pushes
back, resets age, updates the latest tick. -/
def insertCS {C : Type} (b : ComponentSnapshotBuffer C) (component : C) (tick : Nat) :
    ComponentSnapshotBuffer C :=
  if b.max_buffer_size = 0 then b
  else if tick < b.latest_snapshot_tick then b
  else
    let buf := if b.max_buffer_size ≤ b.buffer.length then b.buffer.tail else b.buffer
    { b with
        buffer := buf ++ [⟨tick, component⟩]
        time_since_last_snapshot := 0
        latest_snapshot_tick := tick }

/-- `len()` accessor. -/
def size {C : Type} (b : ComponentSnapshotBuffer C) : Nat :=
  b.buffer.length

/-- `age()` accessor. -/
def age {C : Type} (b : ComponentSnapshotBuffer C) : ℚ :=
  b.time_since_last_snapshot

/-- `add_age(add)`: `time_since_last_snapshot += add`. -/
def add_age {C : Type} (b : ComponentSnapshotBuffer C) (add : ℚ) :
    ComponentSnapshotBuffer C :=
  { b with time_since_last_snapshot := b.time_since_last_snapshot + add }

/-- Folds `insertCS` over a list of `(value, tick)` pairs: a whole sequence
of inserts into the component_snapshots.rs buffer. -/
def insertAllCS {C : Type} (b : ComponentSnapshotBuffer C)
    (l : List (C × Nat)) : ComponentSnapshotBuffer C :=
  l.foldl (fun acc p => insertCS acc p.1 p.2) b

end ComponentSnapshotBuffer

/-- `clamp` of `f32`: restrict `x` to `[lo, hi]`. -/
def clampQ (x lo hi : ℚ) : ℚ := max lo (min x hi)

/-- One entity's pass of `interpolate_replication_system`
(src/interpolation.rs lines 24-43), for a caller-supplied blend function
(the `Interpolate` trait): returns the new displayed component value.
`component` is the current displayed value, kept unchanged on the skip
paths (`continue` in the Rust loop). `server_tick_rate` is
`RepliconSnapConfig::server_tick_rate`; `delta_time` is
`time.delta_seconds()`. -/
def interpolateStep {C : Type} (blend : C → C → ℚ → C) (component : C)
    (buf : ComponentSnapshotBuffer C) (delta_time : ℚ)
    (server_tick_rate : Nat) : C :=
  if buf.buffer.length < 2 then component
  else if 1 / (server_tick_rate : ℚ) + delta_time < buf.time_since_last_snapshot then
    component
  else
    match buf.buffer.reverse with
    | latest :: second :: _ =>
        blend second.value latest.value
          (clampQ (buf.time_since_last_snapshot / (1 / (server_tick_rate : ℚ))) 0 1)
    | _ => component

/-- The `IndexedEvent` trait (src/snapshots/event_snapshots.rs lines 5-8):
an event carrying a sequence index assigned by its originator. -/
class IndexedEvent (E : Type) where
  index : E → Nat

/-- `EventSnapshot { event, tick }` (src/snapshots/event_snapshots.rs). -/
structure EventSnapshot (E : Type) where
  event : E
  tick : Nat
deriving Repr, DecidableEq

/-- `EventSnapshot::index()`: delegates to the event's own index. -/
def EventSnapshot.index {E : Type} [IndexedEvent E] (s : EventSnapshot E) : Nat :=
  IndexedEvent.index s.event

/-- `EventSnapshotBufferInner` (src/snapshots/event_snapshots.rs lines
40-44): deque of event snapshots, latest accepted tick, frontier cursor. -/
structure EventSnapshotBufferInner (E : Type) where
  buffer : List (EventSnapshot E)
  latest_snapshot_tick : Nat
  frontier_index : Nat
deriving Repr, DecidableEq

namespace EventSnapshotBufferInner

/-- `EventSnapshotBufferInner::with_capacity`: empty buffer, latest tick 0,
frontier 0 (the capacity argument only pre-allocates in Rust). -/
def with_capacity (E : Type) : EventSnapshotBufferInner E :=
  { buffer := [], latest_snapshot_tick := 0, frontier_index := 0 }

/-- `pop_front()`: drop the oldest entry. -/
def pop_front {E : Type} (b : EventSnapshotBufferInner E) :
    EventSnapshotBufferInner E :=
  { b with buffer := b.buffer.tail }

/-- `EventSnapshotBufferInner::insert` (src/snapshots/event_snapshots.rs
lines 87-106): discards a snapshot with `tick < latest_snapshot_tick` or
`index < frontier_index`; otherwise updates the latest tick and pushes
back. -/
def insert {E : Type} [IndexedEvent E] (b : EventSnapshotBufferInner E)
    (snapshot : EventSnapshot E) : EventSnapshotBufferInner E :=
  if snapshot.tick < b.latest_snapshot_tick then b
  else if snapshot.index < b.frontier_index then b
  else
    { b with
        latest_snapshot_tick := snapshot.tick
        buffer := b.buffer ++ [snapshot] }

/-- Index of the last (most recently pushed) entry, 0 for an empty buffer.
In `frontier` the Rust code reads it as `self.buffer.back().unwrap()`,
reached only when the buffer is nonempty. -/
def backIndex {E : Type} [IndexedEvent E] (l : List (EventSnapshot E)) : Nat :=
  match l.getLast? with
  | some s => s.index
  | none => 0

/-- `EventSnapshotBufferInner::frontier` (src/snapshots/event_snapshots.rs
lines 109-118): finds the first entry with `index >= frontier_index`; if
found, advances `frontier_index` to the back entry's index plus one and
returns the range from the found position to the end; otherwise returns
the empty range and leaves the state unchanged. Returns (yielded entries,
new state). -/
def frontier {E : Type} [IndexedEvent E] (b : EventSnapshotBufferInner E) :
    List (EventSnapshot E) × EventSnapshotBufferInner E :=
  match b.buffer.findIdx? (fun e => b.frontier_index ≤ e.index) with
  | some begi =>
      (b.buffer.drop begi,
       { b with frontier_index := backIndex b.buffer + 1 })
  | none => ([], b)

end EventSnapshotBufferInner

/-- `EventSnapshotBuffer` (src/snapshots/event_snapshots.rs lines 121-125):
an inner buffer plus the configured capacity. -/
structure EventSnapshotBuffer (E : Type) where
  buffer : EventSnapshotBufferInner E
  max_buffer_size : Nat
deriving Repr, DecidableEq

namespace EventSnapshotBuffer

/-- `EventSnapshotBuffer::new(max_buffer_size)`. -/
def new (E : Type) (max_buffer_size : Nat) : EventSnapshotBuffer E :=
  { buffer := EventSnapshotBufferInner.with_capacity E
    max_buffer_size := max_buffer_size }

/-- `len()`. -/
def size {E : Type} (b : EventSnapshotBuffer E) : Nat :=
  b.buffer.buffer.length

/-- `EventSnapshotBuffer::insert` (src/snapshots/event_snapshots.rs lines
152-162): drops everything when the capacity is 0; otherwise pops the
front when at capacity, then delegates to the inner insert (which may
still reject the snapshot). -/
def insert {E : Type} [IndexedEvent E] (b : EventSnapshotBuffer E)
    (event : E) (tick : Nat) : EventSnapshotBuffer E :=
  if b.max_buffer_size = 0 then b
  else if b.max_buffer_size ≤ b.buffer.buffer.length then
    { b with buffer := b.buffer.pop_front.insert ⟨event, tick⟩ }
  else
    { b with buffer := b.buffer.insert ⟨event, tick⟩ }

/-- `EventSnapshotBuffer::frontier`: delegates to the inner buffer. -/
def frontier {E : Type} [IndexedEvent E] (b : EventSnapshotBuffer E) :
    List (EventSnapshot E) × EventSnapshotBuffer E :=
  (b.buffer.frontier.1, { b with buffer := b.buffer.frontier.2 })

end EventSnapshotBuffer

/-- `EventSnapshotClientMap` (src/snapshots/event_snapshots.rs lines
180-184): per-peer inner buffers. The `HashMap<ClientId, _>` is embedded
as a function from peer id (`u64` raw client id, as `Nat`) to an optional
inner buffer. -/
structure EventSnapshotClientMap (E : Type) where
  buffer : Nat → Option (EventSnapshotBufferInner E)
  max_buffer_size : Nat

namespace EventSnapshotClientMap

/-- `EventSnapshotClientMap::new(max_buffer_size)`: empty map. -/
def new (E : Type) (max_buffer_size : Nat) : EventSnapshotClientMap E :=
  { buffer := fun _ => none, max_buffer_size := max_buffer_size }

/-- `.entry(client_id).or_insert(with_capacity(..))`: the existing inner
buffer, or a fresh empty one. -/
def entryOr {E : Type} (m : EventSnapshotClientMap E) (client_id : Nat) :
    EventSnapshotBufferInner E :=
  (m.buffer client_id).getD (EventSnapshotBufferInner.with_capacity E)

/-- Store an inner buffer under a peer id, leaving every other peer's
entry unchanged. -/
def store {E : Type} (m : EventSnapshotClientMap E) (client_id : Nat)
    (h : EventSnapshotBufferInner E) : EventSnapshotClientMap E :=
  { m with buffer := fun q => if q = client_id then some h else m.buffer q }

/-- `EventSnapshotClientMap::insert` (src/snapshots/event_snapshots.rs
lines 225-239): looks up or lazily creates the peer's buffer (the entry is
created even on the capacity-0 early return, mirroring `entry().or_insert`
running first), then pops the front when at capacity and delegates to the
inner insert. -/
def insert {E : Type} [IndexedEvent E] (m : EventSnapshotClientMap E)
    (client_id : Nat) (event : E) (tick : Nat) : EventSnapshotClientMap E :=
  if m.max_buffer_size = 0 then m.store client_id (m.entryOr client_id)
  else if m.max_buffer_size ≤ (m.entryOr client_id).buffer.length then
    m.store client_id ((m.entryOr client_id).pop_front.insert ⟨event, tick⟩)
  else
    m.store client_id ((m.entryOr client_id).insert ⟨event, tick⟩)

/-- `EventSnapshotClientMap::frontier` (src/snapshots/event_snapshots.rs
lines 258-265): looks up or lazily creates the peer's buffer, then
delegates to the inner frontier. Returns (yielded entries, new map). -/
def frontier {E : Type} [IndexedEvent E] (m : EventSnapshotClientMap E)
    (client_id : Nat) : List (EventSnapshot E) × EventSnapshotClientMap E :=
  ((m.entryOr client_id).frontier.1,
   m.store client_id (m.entryOr client_id).frontier.2)

end EventSnapshotClientMap

/-- An operation on an `EventSnapshotBuffer`: one `insert(event, tick)`
call or one `frontier()` call. -/
inductive BufOp (E : Type) where
  | insertOp (ev : E) (tick : Nat)
  | frontierOp
deriving Repr, DecidableEq

/-- Apply one operation to an event buffer (the yielded entries of a
`frontier` call are discarded; only the state matters here). -/
def applyOp {E : Type} [IndexedEvent E] (b : EventSnapshotBuffer E) :
    BufOp E → EventSnapshotBuffer E
  | .insertOp ev tick => b.insert ev tick
  | .frontierOp => b.frontier.2

/-- Run a whole sequence of operations on a freshly created buffer. -/
def runOps {E : Type} [IndexedEvent E] (cap : Nat) (ops : List (BufOp E)) :
    EventSnapshotBuffer E :=
  ops.foldl applyOp (EventSnapshotBuffer.new E cap)

/-- The frontier cursor never points more than one past the newest entry:
whenever the buffer is nonempty, `frontier_index ≤ back.index + 1`. This
is the invariant that makes the cursor monotone. -/
def FrontierInv {E : Type} [IndexedEvent E] (b : EventSnapshotBufferInner E) : Prop :=
  b.buffer ≠ [] →
    b.frontier_index ≤ EventSnapshotBufferInner.backIndex b.buffer + 1

/-- The snapshot built from one `(value, tick)` insert argument pair. -/
def toSnap {C : Type} (p : C × Nat) : ComponentSnapshot C :=
  ⟨p.2, p.1⟩

/-- Events used in concrete test states: a bare sequence index (the
`IndexedEvent` instance reads the index off the event itself). -/
instance : IndexedEvent Nat := ⟨fun n => n⟩

/-- Linear interpolation on `ℚ`, a concrete instance of the blend
capability contract (`blend a b 0 = a`, `blend a b 1 = b`). -/
def blendLin (a b t : ℚ) : ℚ :=
  a + (b - a) * t

/-!  Theorems settling the claims.  -/

/-- C1 (counterexample): in the component_snapshots.rs revision of
`ComponentSnapshotBuffer::insert`, an insert whose tick equals
`latest_tick` — hence is ≤ it — is accepted, not rejected: after
inserting tick 5 into a fresh buffer of capacity 2 (`len() = 1`,
`latest_tick = 5`), a second insert at tick 5 grows `len()` to 2, so the
insert changed the stored sequence. -/
theorem C1_insertCS_equal_tick_cex :
    5 ≤ ((ComponentSnapshotBuffer.new Nat 2).insertCS 0 5).latest_snapshot_tick
    ∧ ((ComponentSnapshotBuffer.new Nat 2).insertCS 0 5).buffer.length = 1
    ∧ (((ComponentSnapshotBuffer.new Nat 2).insertCS 0 5).insertCS 1 5).buffer.length = 2 := by
  decide

/-- C1 (amended): the components.rs revision of
`ComponentSnapshotBuffer::insert` rejects any tick ≤ `latest_tick`,
changing nothing; the component_snapshots.rs revision rejects only a tick
strictly below `latest_tick`, changing nothing in that case (a tick equal
to `latest_tick` is accepted there). -/
theorem C1_insert_stale_rejected {C : Type} (b : ComponentSnapshotBuffer C)
    (v : C) (tick : Nat) :
    (tick ≤ b.latest_snapshot_tick → b.insert v tick = b)
    ∧ (tick < b.latest_snapshot_tick → b.insertCS v tick = b) := by
  constructor
  · intro h
    unfold ComponentSnapshotBuffer.insert
    rw [if_pos h]
  · intro h
    unfold ComponentSnapshotBuffer.insertCS
    by_cases h0 : b.max_buffer_size = 0
    · rw [if_pos h0]
    · rw [if_neg h0, if_pos h]

/-- C1 (witness): concrete rejected inserts for both revisions. -/
theorem C1_insert_stale_rejected_witness :
    (((ComponentSnapshotBuffer.new Nat 3).insertCS 9 5).insert 7 5
      = (ComponentSnapshotBuffer.new Nat 3).insertCS 9 5)
    ∧ (((ComponentSnapshotBuffer.new Nat 3).insertCS 9 5).insertCS 7 4
      = (ComponentSnapshotBuffer.new Nat 3).insertCS 9 5) :=
  ⟨(C1_insert_stale_rejected _ 7 5).1 (by decide),
   (C1_insert_stale_rejected _ 7 4).2 (by decide)⟩

/-- C2: with at least two snapshots and a non-stalled stream
(`age ≤ tick_duration + delta_time`), the interpolation step yields
`blend(second_newest.value, newest.value, clamp(age / tick_duration, 0, 1))`;
under the blend capability contract this is the second-newest value at
`age = 0` and the newest value at `age = tick_duration`. -/
theorem C2_interpolate_blends {C : Type} (blend : C → C → ℚ → C)
    (component : C) (buf : ComponentSnapshotBuffer C) (delta_time : ℚ)
    (rate : Nat) (latest second : ComponentSnapshot C)
    (rest : List (ComponentSnapshot C))
    (hrev : buf.buffer.reverse = latest :: second :: rest)
    (hstall : buf.time_since_last_snapshot ≤ 1 / (rate : ℚ) + delta_time) :
    interpolateStep blend component buf delta_time rate
      = blend second.value latest.value
          (clampQ (buf.time_since_last_snapshot / (1 / (rate : ℚ))) 0 1)
    ∧ (blend second.value latest.value 0 = second.value →
        buf.time_since_last_snapshot = 0 →
        interpolateStep blend component buf delta_time rate = second.value)
    ∧ (blend second.value latest.value 1 = latest.value → 0 < rate →
        buf.time_since_last_snapshot = 1 / (rate : ℚ) →
        interpolateStep blend component buf delta_time rate = latest.value) := by
  have hlen : ¬ buf.buffer.length < 2 := by
    have hl := congrArg List.length hrev
    rw [List.length_reverse] at hl
    simp only [List.length_cons] at hl
    omega
  have hmain : interpolateStep blend component buf delta_time rate
      = blend second.value latest.value
          (clampQ (buf.time_since_last_snapshot / (1 / (rate : ℚ))) 0 1) := by
    unfold interpolateStep
    rw [if_neg hlen, if_neg (not_lt.mpr hstall), hrev]
  refine ⟨hmain, ?_, ?_⟩
  · intro hb h0
    rw [hmain, h0]
    have : clampQ ((0 : ℚ) / (1 / (rate : ℚ))) 0 1 = 0 := by
      norm_num [clampQ]
    rw [this, hb]
  · intro hb hrate heq
    rw [hmain, heq]
    have hne : (1 / (rate : ℚ)) ≠ 0 := by
      have : (rate : ℚ) ≠ 0 := Nat.cast_ne_zero.mpr hrate.ne'
      simp [this]
    rw [div_self hne]
    have : clampQ (1 : ℚ) 0 1 = 1 := by norm_num [clampQ]
    rw [this, hb]

/-- C2 (witness): two snapshots (values 100 at tick 10, 200 at tick 11),
age 0, tick rate 10: the step displays the second-newest value 100. -/
theorem C2_interpolate_blends_witness :
    interpolateStep blendLin 0 ⟨[⟨10, 100⟩, ⟨11, 200⟩], 0, 11, 4⟩ (1 / 100) 10
      = 100 :=
  (C2_interpolate_blends blendLin 0 ⟨[⟨10, 100⟩, ⟨11, 200⟩], 0, 11, 4⟩
    (1 / 100) 10 ⟨11, 200⟩ ⟨10, 100⟩ [] rfl (by norm_num)).2.1
    (by norm_num [blendLin]) rfl

/-- Helper: a fold of `max` stays below any common upper bound. -/
theorem foldl_max_le (ts : List Nat) (a t : Nat) (ha : a ≤ t)
    (h : ∀ s ∈ ts, s ≤ t) : ts.foldl max a ≤ t := by
  induction ts generalizing a with
  | nil => simpa using ha
  | cons x xs ih =>
      simp only [List.foldl_cons]
      exact ih (max a x) (max_le ha (h x (by simp)))
        (fun s hs => h s (by simp [hs]))

/-- Helper invariant for C5: folding component_snapshots.rs inserts with
strictly increasing ticks over a fresh buffer keeps the capacity field,
makes `latest_snapshot_tick` the running maximum of the ticks, and leaves
exactly the most recent `min (length, capacity)` snapshots, as a suffix
of the inserted sequence (FIFO eviction of the oldest). -/
theorem insertAllCS_inv {C : Type} (cap : Nat) (hcap : 0 < cap)
    (l : List (C × Nat)) (hinc : (l.map Prod.snd).Pairwise (· < ·)) :
    (ComponentSnapshotBuffer.insertAllCS
        (ComponentSnapshotBuffer.new C cap) l).max_buffer_size = cap
    ∧ (ComponentSnapshotBuffer.insertAllCS
        (ComponentSnapshotBuffer.new C cap) l).latest_snapshot_tick
        = (l.map Prod.snd).foldl max 0
    ∧ (ComponentSnapshotBuffer.insertAllCS
        (ComponentSnapshotBuffer.new C cap) l).buffer
        = (l.map toSnap).drop (l.length - cap) := by
  induction l using List.reverseRecOn with
  | nil =>
      exact ⟨rfl, rfl, by
        simp [ComponentSnapshotBuffer.insertAllCS, ComponentSnapshotBuffer.new]⟩
  | append_singleton l x ih =>
      rw [List.map_append] at hinc
      obtain ⟨hp1, _, hlt⟩ := List.pairwise_append.mp hinc
      obtain ⟨hmax, hlatest, hbuf⟩ := ih hp1
      have hstep : ComponentSnapshotBuffer.insertAllCS
          (ComponentSnapshotBuffer.new C cap) (l ++ [x])
          = (ComponentSnapshotBuffer.insertAllCS
              (ComponentSnapshotBuffer.new C cap) l).insertCS x.1 x.2 := by
        unfold ComponentSnapshotBuffer.insertAllCS
        rw [List.foldl_append]
        rfl
      set B := ComponentSnapshotBuffer.insertAllCS
        (ComponentSnapshotBuffer.new C cap) l with hB
      have hle : B.latest_snapshot_tick ≤ x.2 := by
        rw [hlatest]
        exact foldl_max_le _ 0 x.2 (Nat.zero_le _)
          (fun s hs => Nat.le_of_lt (hlt s hs x.2 (by simp)))
      have hne : B.max_buffer_size ≠ 0 := by rw [hmax]; omega
      have hinsert : B.insertCS x.1 x.2
          = { B with
              buffer := (if B.max_buffer_size ≤ B.buffer.length
                  then B.buffer.tail else B.buffer) ++ [⟨x.2, x.1⟩]
              time_since_last_snapshot := 0
              latest_snapshot_tick := x.2 } := by
        unfold ComponentSnapshotBuffer.insertCS
        rw [if_neg hne, if_neg (not_lt.mpr hle)]
      rw [hstep, hinsert]
      refine ⟨hmax, ?_, ?_⟩
      · show x.2 = ((l ++ [x]).map Prod.snd).foldl max 0
        rw [List.map_append, List.foldl_append]
        simp only [List.map_cons, List.map_nil, List.foldl_cons, List.foldl_nil]
        rw [← hlatest]
        exact (max_eq_right hle).symm
      · show (if B.max_buffer_size ≤ B.buffer.length
            then B.buffer.tail else B.buffer) ++ [⟨x.2, x.1⟩]
          = ((l ++ [x]).map toSnap).drop ((l ++ [x]).length - cap)
        rw [hmax, hbuf, List.map_append, List.length_append]
        have hlenS : ((l.map toSnap) : List (ComponentSnapshot C)).length
            = l.length := List.length_map _ _
        by_cases hc : cap ≤ l.length
        · have hcond : cap ≤ ((l.map toSnap).drop (l.length - cap)).length := by
            rw [List.length_drop, hlenS]
            omega
          rw [if_pos hcond, List.tail_drop]
          have hk : l.length + [x].length - cap = l.length - cap + 1 := by
            simp only [List.length_singleton]
            omega
          rw [hk,
            List.drop_append_of_le_length (by rw [hlenS]; omega)]
          rfl
        · have hcond : ¬ cap ≤ ((l.map toSnap).drop (l.length - cap)).length := by
            rw [List.length_drop, hlenS]
            omega
          have h0 : l.length - cap = 0 := by omega
          have h1 : l.length + [x].length - cap = 0 := by
            simp only [List.length_singleton]
            omega
          rw [if_neg hcond, h0, h1, List.drop_zero, List.drop_zero]
          rfl

/-- C5: from a fresh buffer of positive capacity, any sequence of
component_snapshots.rs inserts with strictly increasing ticks keeps
`len() ≤ capacity`, makes `latest_tick` the maximum tick inserted so far
(the fold of `max` over the ticks), and leaves exactly the most recent
`min(#inserts, capacity)` snapshots in order — the oldest entry is the
one evicted whenever the buffer is at capacity. -/
theorem C5_component_buffer_bounded {C : Type} (cap : Nat) (hcap : 0 < cap)
    (l : List (C × Nat)) (hinc : (l.map Prod.snd).Chain' (· < ·)) :
    (ComponentSnapshotBuffer.insertAllCS
        (ComponentSnapshotBuffer.new C cap) l).buffer.length ≤ cap
    ∧ (ComponentSnapshotBuffer.insertAllCS
        (ComponentSnapshotBuffer.new C cap) l).latest_snapshot_tick
        = (l.map Prod.snd).foldl max 0
    ∧ (ComponentSnapshotBuffer.insertAllCS
        (ComponentSnapshotBuffer.new C cap) l).buffer
        = (l.map toSnap).drop (l.length - cap) := by
  obtain ⟨_, hlatest, hbuf⟩ :=
    insertAllCS_inv cap hcap l (List.chain'_iff_pairwise.mp hinc)
  refine ⟨?_, hlatest, hbuf⟩
  rw [hbuf, List.length_drop, List.length_map]
  omega

/-- C5 (witness): capacity 2, inserts at ticks 1 < 2 < 3: the buffer
keeps the last two snapshots, `latest_tick = 3`, `len() = 2`. -/
theorem C5_component_buffer_bounded_witness :
    (ComponentSnapshotBuffer.insertAllCS
        (ComponentSnapshotBuffer.new Nat 2)
        [(10, 1), (20, 2), (30, 3)]).buffer.length ≤ 2
    ∧ (ComponentSnapshotBuffer.insertAllCS
        (ComponentSnapshotBuffer.new Nat 2)
        [(10, 1), (20, 2), (30, 3)]).latest_snapshot_tick
        = ([(10, 1), (20, 2), (30, 3)].map Prod.snd).foldl max 0
    ∧ (ComponentSnapshotBuffer.insertAllCS
        (ComponentSnapshotBuffer.new Nat 2)
        [(10, 1), (20, 2), (30, 3)]).buffer
        = ([((10 : Nat), (1 : Nat)), (20, 2), (30, 3)].map toSnap).drop 1 :=
  C5_component_buffer_bounded 2 (by decide) [(10, 1), (20, 2), (30, 3)]
    (by norm_num [List.chain'_cons])

/-- Helper: the inner event insert is a no-op on a stale snapshot (tick
strictly below the latest accepted tick, or index below the frontier
cursor). -/
theorem event_insert_stale_unchanged {E : Type} [IndexedEvent E]
    (b : EventSnapshotBufferInner E) (s : EventSnapshot E)
    (h : s.tick < b.latest_snapshot_tick ∨ s.index < b.frontier_index) :
    b.insert s = b := by
  unfold EventSnapshotBufferInner.insert
  by_cases h1 : s.tick < b.latest_snapshot_tick
  · rw [if_pos h1]
  · rcases h with h | h
    · exact absurd h h1
    · rw [if_neg h1, if_pos h]

/-- C6 (counterexample): `EventSnapshotBufferInner::insert` rejects only a
tick strictly below `latest_snapshot_tick`, not one equal to it: after
inserting an event at tick 5 (`len() = 1`, `latest_tick = 5`), a second
event at tick 5 is stored and `len()` grows to 2 — the component buffer's
`tick ≤ latest` rejection is not applied here. -/
theorem C6_event_equal_tick_cex :
    ((EventSnapshotBuffer.new Nat 8).insert 0 5).buffer.latest_snapshot_tick = 5
    ∧ ((EventSnapshotBuffer.new Nat 8).insert 0 5).size = 1
    ∧ (((EventSnapshotBuffer.new Nat 8).insert 0 5).insert 1 5).size = 2 := by
  decide

/-- C6 (amended): the event buffer insert rejects a tick strictly below
`latest_snapshot_tick` and rejects an index below `frontier_index`,
leaving the inner state unchanged (so the event is never stored, also on
redelivery); at the `EventSnapshotBuffer` level a rejected event is never
appended — the stored sequence is the old one, possibly minus its evicted
front entry. -/
theorem C6_event_insert_rejects {E : Type} [IndexedEvent E]
    (b : EventSnapshotBufferInner E) (s : EventSnapshot E)
    (bo : EventSnapshotBuffer E) (ev : E) (tick : Nat) :
    (s.tick < b.latest_snapshot_tick ∨ s.index < b.frontier_index →
      b.insert s = b)
    ∧ (tick < bo.buffer.latest_snapshot_tick
        ∨ IndexedEvent.index ev < bo.buffer.frontier_index →
      (bo.insert ev tick).buffer.buffer = bo.buffer.buffer
      ∨ (bo.insert ev tick).buffer.buffer = bo.buffer.buffer.tail) := by
  have key := fun (b : EventSnapshotBufferInner E) (s : EventSnapshot E) =>
    event_insert_stale_unchanged b s
  refine ⟨key b s, ?_⟩
  intro h
  unfold EventSnapshotBuffer.insert
  by_cases h0 : bo.max_buffer_size = 0
  · rw [if_pos h0]
    exact Or.inl rfl
  · rw [if_neg h0]
    by_cases hfull : bo.max_buffer_size ≤ bo.buffer.buffer.length
    · rw [if_pos hfull]
      right
      rw [key bo.buffer.pop_front ⟨ev, tick⟩ h]
      rfl
    · rw [if_neg hfull]
      left
      rw [key bo.buffer ⟨ev, tick⟩ h]

/-- C6 (witness): a tick-4 event against latest tick 5 is dropped by the
inner insert; at the buffer level a tick-3 event against latest tick 5
leaves the stored sequence untouched. -/
theorem C6_event_insert_rejects_witness :
    (EventSnapshotBufferInner.insert ⟨[⟨9, 5⟩], 5, 0⟩ ⟨1, 4⟩
      = (⟨[⟨9, 5⟩], 5, 0⟩ : EventSnapshotBufferInner Nat))
    ∧ ((EventSnapshotBuffer.insert ⟨⟨[⟨9, 5⟩], 5, 0⟩, 4⟩ 2 3).buffer.buffer
        = [(⟨9, 5⟩ : EventSnapshot Nat)]
      ∨ (EventSnapshotBuffer.insert ⟨⟨[⟨9, 5⟩], 5, 0⟩, 4⟩ 2 3).buffer.buffer
        = [(⟨9, 5⟩ : EventSnapshot Nat)].tail) :=
  ⟨(C6_event_insert_rejects (⟨[⟨9, 5⟩], 5, 0⟩ : EventSnapshotBufferInner Nat)
      ⟨1, 4⟩ ⟨⟨[⟨9, 5⟩], 5, 0⟩, 4⟩ 2 3).1 (by decide),
   (C6_event_insert_rejects (⟨[⟨9, 5⟩], 5, 0⟩ : EventSnapshotBufferInner Nat)
      ⟨1, 4⟩ ⟨⟨[⟨9, 5⟩], 5, 0⟩, 4⟩ 2 3).2 (by decide)⟩

/-- Unfolding lemma: when no entry is at or above the cursor, `frontier`
returns the empty range and the unchanged state. -/
theorem frontier_of_none {E : Type} [IndexedEvent E]
    (b : EventSnapshotBufferInner E)
    (h : b.buffer.findIdx? (fun e => b.frontier_index ≤ e.index) = none) :
    b.frontier = ([], b) := by
  unfold EventSnapshotBufferInner.frontier
  rw [h]

/-- Unfolding lemma: when the scan finds position `i`, `frontier` returns
the trailing sub-range from `i` and advances the cursor past the back
entry's index. -/
theorem frontier_of_some {E : Type} [IndexedEvent E]
    (b : EventSnapshotBufferInner E) (i : Nat)
    (h : b.buffer.findIdx? (fun e => b.frontier_index ≤ e.index) = some i) :
    b.frontier = (b.buffer.drop i,
      { b with frontier_index := EventSnapshotBufferInner.backIndex b.buffer + 1 }) := by
  unfold EventSnapshotBufferInner.frontier
  rw [h]

/-- C3: `frontier()` scans for the first entry with
`index ≥ frontier_index`. If every entry is below the cursor, it returns
the empty range and leaves the state unchanged. If position `i` is the
first at-or-above-cursor entry, the back entry exists (the code's
`unwrap` is safe), the cursor advances to the back entry's index plus
one, and exactly the sub-range from `i` to the end is returned. -/
theorem C3_frontier_spec {E : Type} [IndexedEvent E]
    (b : EventSnapshotBufferInner E) :
    ((∀ s ∈ b.buffer, s.index < b.frontier_index) → b.frontier = ([], b))
    ∧ (∀ (i : Nat) (hi : i < b.buffer.length),
        b.frontier_index ≤ (b.buffer.get ⟨i, hi⟩).index →
        (∀ j, j < i → ∀ (hj : j < b.buffer.length),
          (b.buffer.get ⟨j, hj⟩).index < b.frontier_index) →
        b.buffer.getLast?.isSome = true
        ∧ b.frontier = (b.buffer.drop i,
            { b with frontier_index :=
                EventSnapshotBufferInner.backIndex b.buffer + 1 })) := by
  constructor
  · intro hall
    unfold EventSnapshotBufferInner.frontier
    have hnone : b.buffer.findIdx? (fun e => b.frontier_index ≤ e.index) = none := by
      rw [List.findIdx?_eq_none_iff]
      intro x hx
      simp only [decide_eq_false_iff_not, not_le]
      exact hall x hx
    rw [hnone]
  · intro i hi hfound hbefore
    have hsome : b.buffer.findIdx? (fun e => b.frontier_index ≤ e.index) = some i := by
      rw [List.findIdx?_eq_some_iff_getElem]
      refine ⟨hi, by simpa using hfound, ?_⟩
      intro j hj
      simp only [Bool.not_eq_true, decide_eq_false_iff_not, not_le]
      have := hbefore j hj (Nat.lt_trans hj hi)
      simpa using this
    have hne : b.buffer ≠ [] := by
      intro hnil
      rw [hnil] at hi
      exact absurd hi (by simp)
    refine ⟨by simpa [List.getLast?_isSome] using hne, ?_⟩
    unfold EventSnapshotBufferInner.frontier
    rw [hsome]

/-- C3 (witness): buffer with entries of index 4 and 7 and cursor 5: the
first at-or-above-cursor entry is at position 1, the tail sub-range is
returned, and the cursor advances to 7 + 1. -/
theorem C3_frontier_spec_witness :
    ((⟨[⟨4, 1⟩, ⟨7, 2⟩], 2, 5⟩ : EventSnapshotBufferInner Nat).buffer.getLast?.isSome
      = true)
    ∧ EventSnapshotBufferInner.frontier
        (⟨[⟨4, 1⟩, ⟨7, 2⟩], 2, 5⟩ : EventSnapshotBufferInner Nat)
      = ((⟨[⟨4, 1⟩, ⟨7, 2⟩], 2, 5⟩ : EventSnapshotBufferInner Nat).buffer.drop 1,
         { (⟨[⟨4, 1⟩, ⟨7, 2⟩], 2, 5⟩ : EventSnapshotBufferInner Nat) with
             frontier_index := EventSnapshotBufferInner.backIndex
               (⟨[⟨4, 1⟩, ⟨7, 2⟩], 2, 5⟩ : EventSnapshotBufferInner Nat).buffer + 1 }) :=
  (C3_frontier_spec (⟨[⟨4, 1⟩, ⟨7, 2⟩], 2, 5⟩ : EventSnapshotBufferInner Nat)).2
    1 (by decide) (by decide) (by decide)

/-- C4 (counterexample): after inserting an event with index 5 (tick 1)
and then one with index 3 (tick 2) — both accepted, since the buffer does
not sort by index — the first `frontier()` call advances the cursor only
to the back entry's index plus one (3 + 1 = 4), so the index-5 entry
still qualifies and a second, back-to-back `frontier()` call returns both
entries again instead of an empty range. -/
theorem C4_frontier_twice_cex :
    (((EventSnapshotBuffer.new Nat 8).insert 5 1).insert 3 2).frontier.2.frontier.1
      = [⟨5, 1⟩, ⟨3, 2⟩] := by
  decide

/-- Helper for C4: one inner `frontier` call after which no entry can be
at or above the cursor, provided no entry's index exceeds the back
entry's index. -/
theorem frontier_twice_inner_empty {E : Type} [IndexedEvent E]
    (b : EventSnapshotBufferInner E)
    (h : ∀ s ∈ b.buffer, s.index ≤ EventSnapshotBufferInner.backIndex b.buffer) :
    b.frontier.2.frontier.1 = [] := by
  cases hf : b.buffer.findIdx? (fun e => b.frontier_index ≤ e.index) with
  | none =>
      rw [frontier_of_none b hf]
      show b.frontier.1 = []
      rw [frontier_of_none b hf]
  | some i =>
      rw [frontier_of_some b i hf]
      show ({ b with frontier_index :=
        EventSnapshotBufferInner.backIndex b.buffer + 1 }
          : EventSnapshotBufferInner E).frontier.1 = []
      have hnone : b.buffer.findIdx?
          (fun e => EventSnapshotBufferInner.backIndex b.buffer + 1 ≤ e.index)
          = none := by
        rw [List.findIdx?_eq_none_iff]
        intro x hx
        simp only [decide_eq_false_iff_not, not_le]
        exact Nat.lt_succ_of_le (h x hx)
      rw [frontier_of_none _ hnone]

/-- C4 (amended): two back-to-back `frontier()` calls with no insert
between them return an empty range the second time, provided no buffered
entry's index exceeds the back entry's index (e.g. after
`sort_with_index`, or when events were inserted in non-decreasing index
order); with out-of-index-order entries the second call can return
entries again. -/
theorem C4_frontier_twice_empty {E : Type} [IndexedEvent E]
    (b : EventSnapshotBuffer E)
    (h : ∀ s ∈ b.buffer.buffer,
      s.index ≤ EventSnapshotBufferInner.backIndex b.buffer.buffer) :
    b.frontier.2.frontier.1 = [] :=
  frontier_twice_inner_empty b.buffer h

/-- C4 (witness): with indices inserted in increasing order (1 then 3),
the second back-to-back frontier call yields nothing. -/
theorem C4_frontier_twice_empty_witness :
    (((EventSnapshotBuffer.new Nat 8).insert 1 1).insert 3 2).frontier.2.frontier.1
      = [] :=
  C4_frontier_twice_empty (((EventSnapshotBuffer.new Nat 8).insert 1 1).insert 3 2)
    (by decide)

/-- C7: when an event buffer — or a peer's buffer inside the client map —
is at capacity, `insert` pops the oldest entry before the inner staleness
checks run: an insert that is then rejected (stale tick, or index below
the frontier) still removes the oldest buffered event and shrinks
`len()` by one. -/
theorem C7_insert_evicts_before_checks {E : Type} [IndexedEvent E]
    (bo : EventSnapshotBuffer E) (ev : E) (tick : Nat)
    (m : EventSnapshotClientMap E) (peer : Nat)
    (inner : EventSnapshotBufferInner E) (ev2 : E) (tick2 : Nat)
    (hcap : 0 < bo.max_buffer_size)
    (hfull : bo.buffer.buffer.length = bo.max_buffer_size)
    (hstale : tick < bo.buffer.latest_snapshot_tick
      ∨ IndexedEvent.index ev < bo.buffer.frontier_index)
    (hmcap : 0 < m.max_buffer_size)
    (hpeer : m.buffer peer = some inner)
    (hmfull : inner.buffer.length = m.max_buffer_size)
    (hmstale : tick2 < inner.latest_snapshot_tick
      ∨ IndexedEvent.index ev2 < inner.frontier_index) :
    ((bo.insert ev tick).buffer.buffer = bo.buffer.buffer.tail
      ∧ (bo.insert ev tick).size + 1 = bo.size)
    ∧ ((m.insert peer ev2 tick2).buffer peer = some inner.pop_front
      ∧ inner.pop_front.buffer.length + 1 = inner.buffer.length) := by
  constructor
  · have h1 : bo.insert ev tick
        = { bo with buffer := bo.buffer.pop_front.insert ⟨ev, tick⟩ } := by
      unfold EventSnapshotBuffer.insert
      rw [if_neg (by omega), if_pos (le_of_eq hfull.symm)]
    have h2 : bo.buffer.pop_front.insert ⟨ev, tick⟩ = bo.buffer.pop_front :=
      event_insert_stale_unchanged _ _ hstale
    constructor
    · rw [h1, h2]
      rfl
    · rw [h1, h2]
      show bo.buffer.buffer.tail.length + 1 = bo.buffer.buffer.length
      rw [List.length_tail]
      omega
  · have he : m.entryOr peer = inner := by
      simp [EventSnapshotClientMap.entryOr, hpeer]
    have h1 : m.insert peer ev2 tick2
        = m.store peer ((m.entryOr peer).pop_front.insert ⟨ev2, tick2⟩) := by
      unfold EventSnapshotClientMap.insert
      rw [if_neg (by omega), if_pos (by rw [he]; exact le_of_eq hmfull.symm)]
    have h2 : inner.pop_front.insert ⟨ev2, tick2⟩ = inner.pop_front :=
      event_insert_stale_unchanged _ _ hmstale
    constructor
    · rw [h1, he, h2]
      simp [EventSnapshotClientMap.store]
    · show inner.buffer.tail.length + 1 = inner.buffer.length
      rw [List.length_tail]
      omega

/-- C7 (witness): a full buffer (2 of 2 entries, latest tick 6) receiving
a stale tick-4 event still loses its oldest entry; same for a full
per-peer buffer in the map. -/
theorem C7_insert_evicts_before_checks_witness :
    ((EventSnapshotBuffer.insert ⟨⟨[⟨9, 5⟩, ⟨8, 6⟩], 6, 0⟩, 2⟩ 1 4).buffer.buffer
        = ([(⟨9, 5⟩ : EventSnapshot Nat), ⟨8, 6⟩]).tail
      ∧ (EventSnapshotBuffer.insert ⟨⟨[⟨9, 5⟩, ⟨8, 6⟩], 6, 0⟩, 2⟩ 1 4).size + 1
        = (⟨⟨[⟨9, 5⟩, ⟨8, 6⟩], 6, 0⟩, 2⟩ : EventSnapshotBuffer Nat).size)
    ∧ ((EventSnapshotClientMap.insert
          ⟨fun q => if q = 3 then some ⟨[⟨9, 5⟩], 5, 0⟩ else none, 1⟩ 3 2 4).buffer 3
        = some (EventSnapshotBufferInner.pop_front ⟨[⟨9, 5⟩], 5, 0⟩)
      ∧ (EventSnapshotBufferInner.pop_front
          (⟨[⟨9, 5⟩], 5, 0⟩ : EventSnapshotBufferInner Nat)).buffer.length + 1
        = (⟨[⟨9, 5⟩], 5, 0⟩ : EventSnapshotBufferInner Nat).buffer.length) :=
  C7_insert_evicts_before_checks ⟨⟨[⟨9, 5⟩, ⟨8, 6⟩], 6, 0⟩, 2⟩ 1 4
    ⟨fun q => if q = 3 then some ⟨[⟨9, 5⟩], 5, 0⟩ else none, 1⟩ 3
    ⟨[⟨9, 5⟩], 5, 0⟩ 2 4 (by decide) rfl (Or.inl (by decide))
    (by decide) (by decide) rfl (Or.inl (by decide))

/-- C9: with fewer than two snapshots, or a stalled stream
(`age > tick_duration + delta_time`), the interpolation step leaves the
displayed component value unchanged. -/
theorem C9_interpolate_skips {C : Type} (blend : C → C → ℚ → C)
    (component : C) (buf : ComponentSnapshotBuffer C) (delta_time : ℚ)
    (rate : Nat)
    (h : buf.buffer.length < 2
      ∨ 1 / (rate : ℚ) + delta_time < buf.time_since_last_snapshot) :
    interpolateStep blend component buf delta_time rate = component := by
  unfold interpolateStep
  rcases h with h | h
  · rw [if_pos h]
  · by_cases h2 : buf.buffer.length < 2
    · rw [if_pos h2]
    · rw [if_neg h2, if_pos h]

/-- C9 (witness): a stalled buffer (age 1 against tick duration 1/10 plus
delta 1/100) keeps the previous displayed value 7. -/
theorem C9_interpolate_skips_witness :
    interpolateStep blendLin 7 ⟨[⟨10, 100⟩, ⟨11, 200⟩], 1, 11, 4⟩ (1 / 100) 10
      = 7 :=
  C9_interpolate_skips blendLin 7 ⟨[⟨10, 100⟩, ⟨11, 200⟩], 1, 11, 4⟩
    (1 / 100) 10 (Or.inr (by norm_num))

/-- Helper: the back entry of a freshly appended snapshot is that
snapshot. -/
theorem backIndex_concat {E : Type} [IndexedEvent E]
    (l : List (EventSnapshot E)) (s : EventSnapshot E) :
    EventSnapshotBufferInner.backIndex (l ++ [s]) = s.index := by
  unfold EventSnapshotBufferInner.backIndex
  rw [List.getLast?_concat]

/-- Helper: popping the front does not change the back entry while the
buffer stays nonempty. -/
theorem backIndex_tail {E : Type} [IndexedEvent E]
    (l : List (EventSnapshot E)) (h : l.tail ≠ []) :
    EventSnapshotBufferInner.backIndex l.tail
      = EventSnapshotBufferInner.backIndex l := by
  cases l with
  | nil => simp at h
  | cons x rest =>
      cases rest with
      | nil => simp at h
      | cons y t =>
          show EventSnapshotBufferInner.backIndex (y :: t)
            = EventSnapshotBufferInner.backIndex (x :: y :: t)
          unfold EventSnapshotBufferInner.backIndex
          rw [List.getLast?_cons_cons]

/-- Helper: the inner insert preserves the frontier invariant — an
accepted snapshot has `index ≥ frontier_index`, so the new back entry
keeps the cursor within one past the back. -/
theorem frontierInv_insert {E : Type} [IndexedEvent E]
    (b : EventSnapshotBufferInner E) (s : EventSnapshot E)
    (hinv : FrontierInv b) : FrontierInv (b.insert s) := by
  unfold EventSnapshotBufferInner.insert
  by_cases h1 : s.tick < b.latest_snapshot_tick
  · rw [if_pos h1]
    exact hinv
  · rw [if_neg h1]
    by_cases h2 : s.index < b.frontier_index
    · rw [if_pos h2]
      exact hinv
    · rw [if_neg h2]
      intro _
      show b.frontier_index
        ≤ EventSnapshotBufferInner.backIndex (b.buffer ++ [s]) + 1
      rw [backIndex_concat]
      omega

/-- Helper: popping the front preserves the frontier invariant. -/
theorem frontierInv_pop {E : Type} [IndexedEvent E]
    (b : EventSnapshotBufferInner E) (hinv : FrontierInv b) :
    FrontierInv b.pop_front := by
  intro hne
  have hne2 : b.buffer.tail ≠ [] := hne
  have hne0 : b.buffer ≠ [] := by
    intro h0
    apply hne2
    rw [h0]
    rfl
  show b.frontier_index ≤ EventSnapshotBufferInner.backIndex b.buffer.tail + 1
  rw [backIndex_tail _ hne2]
  exact hinv hne0

/-- Helper: the buffer-level insert preserves the frontier invariant. -/
theorem frontierInv_outer_insert {E : Type} [IndexedEvent E]
    (b : EventSnapshotBuffer E) (ev : E) (tick : Nat)
    (hinv : FrontierInv b.buffer) : FrontierInv (b.insert ev tick).buffer := by
  unfold EventSnapshotBuffer.insert
  by_cases h0 : b.max_buffer_size = 0
  · rw [if_pos h0]
    exact hinv
  · rw [if_neg h0]
    by_cases hfull : b.max_buffer_size ≤ b.buffer.buffer.length
    · rw [if_pos hfull]
      exact frontierInv_insert _ _ (frontierInv_pop _ hinv)
    · rw [if_neg hfull]
      exact frontierInv_insert _ _ hinv

/-- Helper: a successful scan implies a nonempty buffer. -/
theorem findIdx?_some_ne_nil {α : Type} (l : List α) (p : α → Bool) (i : Nat)
    (h : l.findIdx? p = some i) : l ≠ [] := by
  intro h0
  rw [h0] at h
  simp at h

/-- Helper: a `frontier` call preserves the invariant and can only move
the cursor forward — when it fires, the new cursor `back.index + 1` is at
least the old one by the invariant. -/
theorem frontier_inv_and_mono {E : Type} [IndexedEvent E]
    (b : EventSnapshotBufferInner E) (hinv : FrontierInv b) :
    FrontierInv b.frontier.2
    ∧ b.frontier_index ≤ b.frontier.2.frontier_index := by
  cases hf : b.buffer.findIdx? (fun e => b.frontier_index ≤ e.index) with
  | none =>
      rw [frontier_of_none b hf]
      exact ⟨hinv, le_refl _⟩
  | some i =>
      rw [frontier_of_some b i hf]
      have hne := findIdx?_some_ne_nil _ _ _ hf
      refine ⟨?_, ?_⟩
      · intro _
        exact le_refl _
      · exact hinv hne

/-- Helper: the inner insert never touches `frontier_index`. -/
theorem inner_insert_frontier_index {E : Type} [IndexedEvent E]
    (b : EventSnapshotBufferInner E) (s : EventSnapshot E) :
    (b.insert s).frontier_index = b.frontier_index := by
  unfold EventSnapshotBufferInner.insert
  by_cases h1 : s.tick < b.latest_snapshot_tick
  · rw [if_pos h1]
  · rw [if_neg h1]
    by_cases h2 : s.index < b.frontier_index
    · rw [if_pos h2]
    · rw [if_neg h2]

/-- Helper: one operation never moves the cursor backwards at an
invariant-satisfying state. -/
theorem frontier_index_le_applyOp {E : Type} [IndexedEvent E]
    (b : EventSnapshotBuffer E) (op : BufOp E)
    (hinv : FrontierInv b.buffer) :
    b.buffer.frontier_index ≤ (applyOp b op).buffer.frontier_index := by
  cases op with
  | insertOp ev tick =>
      have heq : (b.insert ev tick).buffer.frontier_index
          = b.buffer.frontier_index := by
        unfold EventSnapshotBuffer.insert
        by_cases h0 : b.max_buffer_size = 0
        · rw [if_pos h0]
        · rw [if_neg h0]
          by_cases hfull : b.max_buffer_size ≤ b.buffer.buffer.length
          · rw [if_pos hfull]
            exact inner_insert_frontier_index b.buffer.pop_front ⟨ev, tick⟩
          · rw [if_neg hfull]
            exact inner_insert_frontier_index b.buffer ⟨ev, tick⟩
      exact le_of_eq heq.symm
  | frontierOp => exact (frontier_inv_and_mono b.buffer hinv).2

/-- Helper: every state reached by running operations from a fresh buffer
satisfies the frontier invariant. -/
theorem frontierInv_foldl {E : Type} [IndexedEvent E]
    (ops : List (BufOp E)) (b : EventSnapshotBuffer E)
    (hinv : FrontierInv b.buffer) :
    FrontierInv (ops.foldl applyOp b).buffer := by
  induction ops generalizing b with
  | nil => exact hinv
  | cons op ops ih =>
      exact ih _ (by
        cases op with
        | insertOp ev tick => exact frontierInv_outer_insert b ev tick hinv
        | frontierOp => exact (frontier_inv_and_mono b.buffer hinv).1)

/-- C8: over any sequence of `insert` and `frontier` calls on a fresh
`EventSnapshotBuffer`, the frontier cursor starts at 0 and never
decreases: appending one more operation to any trace can only keep or
increase `frontier_index`. -/
theorem C8_frontier_index_monotone {E : Type} [IndexedEvent E] (cap : Nat)
    (ops : List (BufOp E)) (op : BufOp E) :
    (runOps cap ([] : List (BufOp E))).buffer.frontier_index = 0
    ∧ (runOps cap ops).buffer.frontier_index
        ≤ (runOps cap (ops ++ [op])).buffer.frontier_index := by
  constructor
  · rfl
  · have hinv : FrontierInv (runOps cap ops).buffer :=
      frontierInv_foldl ops _ (fun h => absurd rfl h)
    have hstep : runOps cap (ops ++ [op]) = applyOp (runOps cap ops) op := by
      unfold runOps
      rw [List.foldl_append]
      rfl
    rw [hstep]
    exact frontier_index_le_applyOp _ op hinv

/-- C10: querying `frontier` for a peer with no buffer yields the empty
range, lazily creates that peer's empty buffer, and leaves every other
peer's entry untouched (the operation is total — no error is possible). -/
theorem C10_map_frontier_unknown {E : Type} [IndexedEvent E]
    (m : EventSnapshotClientMap E) (peer : Nat)
    (h : m.buffer peer = none) :
    (m.frontier peer).1 = []
    ∧ (m.frontier peer).2.buffer peer
        = some (EventSnapshotBufferInner.with_capacity E)
    ∧ ∀ q, q ≠ peer → (m.frontier peer).2.buffer q = m.buffer q := by
  have he : m.entryOr peer = EventSnapshotBufferInner.with_capacity E := by
    simp [EventSnapshotClientMap.entryOr, h]
  refine ⟨?_, ?_, ?_⟩
  · simp [EventSnapshotClientMap.frontier, he, EventSnapshotBufferInner.frontier,
      EventSnapshotBufferInner.with_capacity]
  · simp [EventSnapshotClientMap.frontier, he, EventSnapshotBufferInner.frontier,
      EventSnapshotBufferInner.with_capacity, EventSnapshotClientMap.store]
  · intro q hq
    simp [EventSnapshotClientMap.frontier, EventSnapshotClientMap.store, if_neg hq]

/-- C10 (witness): in a fresh map, a frontier query for unknown peer 7
returns the empty range and peer 3's entry stays absent. -/
theorem C10_map_frontier_unknown_witness :
    ((EventSnapshotClientMap.new Nat 4).frontier 7).1 = []
    ∧ ((EventSnapshotClientMap.new Nat 4).frontier 7).2.buffer 3 = none :=
  ⟨(C10_map_frontier_unknown (EventSnapshotClientMap.new Nat 4) 7 rfl).1,
   ((C10_map_frontier_unknown (EventSnapshotClientMap.new Nat 4) 7 rfl).2.2
      3 (by decide)).trans rfl⟩

end ReplSnap
